import Mathlib

/-!
Verification development for the constrained Bayesian-optimization core
exercised by the notebook `manual/GPyOpt_constrained_optimization.ipynb`.
The notebook is glue code over the GPyOpt library; the library components it
calls (Design_space, initial_design, AcquisitionEI, AcquisitionOptimizer,
Sequential, ModularBayesianOptimization.run_optimization) are not part of the
sources here, so they are modelled from the design specification.  The
notebook's own constraint expressions are embedded directly over the reals.
-/

/-- A candidate point: one rational coordinate per domain variable. -/
abbrev Point : Type := List ℚ

/-- Modelled from the spec: the Feasible Region (GPyOpt's `Design_space`,
absent from the sources).  An ordered list of per-dimension continuous
bounds plus a set of constraint predicates, each a scalar function of a
point that is satisfied when its value is ≤ 0. -/
structure DesignSpace where
  bounds : List (ℚ × ℚ)
  constraints : List (Point → ℚ)

/-- Modelled from the spec: a point respects all variable bounds when it has
one coordinate per domain variable and each coordinate lies in its
variable's (min, max) range. -/
def inBounds (bs : List (ℚ × ℚ)) (p : Point) : Bool :=
  bs.length == p.length &&
    (List.zip bs p).all (fun bx => decide (bx.1.1 ≤ bx.2) && decide (bx.2 ≤ bx.1.2))

/-- Modelled from the spec: membership test of the Feasible Region
(`contains(point) -> bool`): true iff the point respects all variable
bounds and every constraint predicate evaluates ≤ 0 at the point. -/
def contains (ds : DesignSpace) (p : Point) : Bool :=
  inBounds ds.bounds p && ds.constraints.all (fun c => decide (c p ≤ 0))

/-- Indicator (1 or 0) of a single constraint being satisfied at a point. -/
def cIndicator (c : Point → ℚ) (p : Point) : ℚ :=
  if c p ≤ 0 then 1 else 0

/-- Indicator (1 or 0) of the variable bounds being satisfied at a point. -/
def boundsIndicator (ds : DesignSpace) (p : Point) : ℚ :=
  if inBounds ds.bounds p then 1 else 0

/-- Per-point feasibility indicator: 1 inside the feasible region, else 0. -/
def indicator (ds : DesignSpace) (p : Point) : ℚ :=
  if contains ds p then 1 else 0

/-- One vectorized column: a constraint's indicator evaluated at a batch of
points. -/
def constraintColumn (c : Point → ℚ) (ps : List Point) : List ℚ :=
  ps.map (cIndicator c)

/-- Modelled from the spec: bulk (vectorized) feasibility evaluation
(`indicator_constraints` in the notebook).  Each constraint is evaluated
column-wise over the whole batch and the columns are combined by pointwise
product with the bounds column, as a vectorized implementation does. -/
def indicator_constraints (ds : DesignSpace) (ps : List Point) : List ℚ :=
  ds.constraints.foldl
    (fun col c => List.zipWith (fun a b => a * b) col (constraintColumn c ps))
    (ps.map (boundsIndicator ds))

/-- Error values reported by feasible sampling, modelled from the spec's
error-handling design (sampling exhaustion is a reported error). -/
inductive SamplingError where
  | budgetExhausted : SamplingError
  | noCandidates : SamplingError
deriving DecidableEq

/-- Modelled from the spec: the rejection-sampling loop behind
`sample_feasible`.  `fuel` is the remaining attempt budget, `i` indexes the
next raw draw from the bounding box, `need` is the number of feasible points
still to accept and `acc` holds the accepted points (newest first).  Each
attempt consumes one unit of budget; infeasible draws are discarded; an
exhausted budget is a reported error, never an infinite loop. -/
def rejectionLoop (ds : DesignSpace) (draw : Nat → Point) :
    Nat → Nat → Nat → List Point → Except SamplingError (List Point)
  | _, _, 0, acc => Except.ok acc.reverse
  | 0, _, _ + 1, _ => Except.error SamplingError.budgetExhausted
  | fuel + 1, i, need + 1, acc =>
      let p := draw i
      if contains ds p then rejectionLoop ds draw fuel (i + 1) need (p :: acc)
      else rejectionLoop ds draw fuel (i + 1) (need + 1) acc

/-- Modelled from the spec: `sample_feasible(n, method)` (the notebook's
`initial_design('random', feasible_region, n)`): draw points from the
bounding box via the deterministic stream `draw`, rejecting infeasible ones,
until `n` points are accepted or the attempt budget is exhausted. -/
def sample_feasible (ds : DesignSpace) (draw : Nat → Point) (n budget : Nat) :
    Except SamplingError (List Point) :=
  rejectionLoop ds draw budget 0 n []

/-- Modelled from the spec: Expected Improvement for minimization
(GPyOpt's `AcquisitionEI`, absent from the sources).  `Phi` and `phi` stand
for the standard normal CDF and PDF supplied by the surrogate collaborator;
`xi` is the exploration jitter.  If the predictive standard deviation is
zero the value degrades to 0 instead of dividing by zero. -/
def EI (Phi phi : ℚ → ℚ) (xi ybest mu sigma : ℚ) : ℚ :=
  if sigma = 0 then 0
  else
    (ybest - mu - xi) * Phi ((ybest - mu - xi) / sigma) +
      sigma * phi ((ybest - mu - xi) / sigma)

/-- Modelled from the spec: the acquisition's `score(x)`.  Feasibility is
enforced at the acquisition layer: any point outside the feasible region
scores exactly 0 (not an error, not negative infinity); inside it the base
acquisition value is returned. -/
def score (ds : DesignSpace) (base : Point → ℚ) (x : Point) : ℚ :=
  if contains ds x then base x else 0

/-- Best-scoring point among a head candidate and a list of further
candidates, by left fold. -/
def bestOf (s : Point → ℚ) (c : Point) (cs : List Point) : Point :=
  cs.foldl (fun b p => if s b < s p then p else b) c

/-- Modelled from the spec: the Acquisition Optimizer's
`argmax_feasible(acquisition)`.  Candidate seeds are generated by feasible
sampling and the best-scoring seed is returned; local refinement steps are
projected onto the feasible region in the spec, so the selection among
feasible candidates is what decides feasibility of the result. -/
def argmax_feasible (ds : DesignSpace) (s : Point → ℚ) (draw : Nat → Point)
    (nseeds budget : Nat) : Except SamplingError Point :=
  match sample_feasible ds draw nseeds budget with
  | Except.error e => Except.error e
  | Except.ok [] => Except.error SamplingError.noCandidates
  | Except.ok (c :: cs) => Except.ok (bestOf s c cs)

/-- Phases of the Optimization Loop state machine, modelled from the spec. -/
inductive Phase where
  | initializing : Phase
  | iterating : Phase
  | converged : Phase
  | budget_exhausted : Phase
  | failed : Phase
deriving DecidableEq

/-- Modelled from the spec: the Optimization Loop state.  `obs` is the
append-only Observation Set (oldest first), `iter` counts completed
iterations, `elapsed` is the wall-clock time consumed so far (in abstract
units supplied per iteration) and `phase` is the state-machine phase. -/
structure BOState where
  obs : List (Point × ℚ)
  iter : Nat
  elapsed : ℚ
  phase : Phase
deriving DecidableEq

/-- Modelled from the spec: the recognized stopping/search options
(max_iterations, optional max_time, distance tolerance eps, and the
acquisition optimizer's seed count and sampling budget). -/
structure BOConfig where
  max_iter : Nat
  max_time : Option ℚ
  eps : ℚ
  nseeds : Nat
  budget : Nat

/-- One step of the incumbent fold: keep the pair with the smaller
objective value, preferring the earlier pair on ties. -/
def minPair (best : Option (Point × ℚ)) (o : Point × ℚ) : Option (Point × ℚ) :=
  match best with
  | none => some o
  | some b => if o.2 < b.2 then some o else some b

/-- The (point, value) pair of the Observation Set with minimal objective
value; the first such pair when tied, `none` on an empty set. -/
def incumbent (obs : List (Point × ℚ)) : Option (Point × ℚ) :=
  obs.foldl minPair none

/-- `f_opt`: the minimal observed objective value (0 on an empty set). -/
def f_opt (obs : List (Point × ℚ)) : ℚ :=
  ((incumbent obs).map Prod.snd).getD 0

/-- `x_opt`: the observed point attaining `f_opt` ([] on an empty set). -/
def x_opt (obs : List (Point × ℚ)) : Point :=
  ((incumbent obs).map Prod.fst).getD []

/-- Squared Euclidean distance between two points. -/
def sqDist (p q : Point) : ℚ :=
  (List.zipWith (fun a b => (a - b) ^ 2) p q).sum

/-- The two most recently evaluated points of the Observation Set, oldest of
the two first, when at least two observations exist. -/
def lastTwo (obs : List (Point × ℚ)) : Option (Point × Point) :=
  match obs.reverse with
  | b :: a :: _ => some (a.1, b.1)
  | _ => none

/-- Modelled from the spec: the convergence test — the Euclidean distance
between the two most recent evaluated points is below the tolerance `eps`.
Stated on squared quantities, which for `0 < eps` is equivalent to
`Real.sqrt (sqDist a b) < eps` (theorem `sqDist_sqrt_lt_iff`). -/
def distStop (eps : ℚ) (obs : List (Point × ℚ)) : Bool :=
  match lastTwo obs with
  | some ab => decide (sqDist ab.1 ab.2 < eps ^ 2)
  | none => false

/-- Modelled from the spec: the wall-clock budget test; `none` means no time
limit (the notebook passes `max_time = None`). -/
def timeExceeded (mt : Option ℚ) (t : ℚ) : Bool :=
  match mt with
  | none => false
  | some m => decide (m < t)

/-- Modelled from the spec: the stopping-condition check run at the end of
every ITERATING loop body, in priority order: (a) iteration budget reached →
BUDGET_EXHAUSTED; (b) time budget exceeded → BUDGET_EXHAUSTED; (c) distance
between the two most recent points below tolerance → CONVERGED; otherwise
the state is unchanged and the loop repeats. -/
def check_stop (cfg : BOConfig) (st : BOState) : BOState :=
  if st.phase = Phase.iterating then
    if cfg.max_iter ≤ st.iter then { st with phase := Phase.budget_exhausted }
    else if timeExceeded cfg.max_time st.elapsed then
      { st with phase := Phase.budget_exhausted }
    else if distStop cfg.eps st.obs then { st with phase := Phase.converged }
    else st
  else st

/-- Modelled from the spec: one ITERATING iteration under the Sequential
evaluator: refit the surrogate on the full Observation Set, build the EI
acquisition around the incumbent, run the acquisition optimizer, evaluate
the objective at the single selected point and append exactly one
observation.  A sampling failure inside the optimizer moves to FAILED. -/
def bo_step (ds : DesignSpace) (fit : List (Point × ℚ) → Point → ℚ × ℚ)
    (f : Point → ℚ) (Phi phi : ℚ → ℚ) (xi : ℚ) (draw : Nat → Point)
    (cfg : BOConfig) (dt : ℚ) (st : BOState) : BOState :=
  let predict := fit st.obs
  let acq := score ds (fun x => EI Phi phi xi (f_opt st.obs) (predict x).1 (predict x).2)
  match argmax_feasible ds acq draw cfg.nseeds cfg.budget with
  | Except.error _ => { st with phase := Phase.failed }
  | Except.ok x =>
      { st with
        obs := st.obs ++ [(x, f x)]
        iter := st.iter + 1
        elapsed := st.elapsed + dt }

/-- Modelled from the spec: one full loop body — the ITERATING step followed
by the stopping-condition check; outside ITERATING the state is unchanged. -/
def loop_body (ds : DesignSpace) (fit : List (Point × ℚ) → Point → ℚ × ℚ)
    (f : Point → ℚ) (Phi phi : ℚ → ℚ) (xi : ℚ) (draw : Nat → Nat → Point)
    (dt : Nat → ℚ) (cfg : BOConfig) (st : BOState) : BOState :=
  if st.phase = Phase.iterating then
    check_stop cfg (bo_step ds fit f Phi phi xi (draw st.iter) cfg (dt st.iter) st)
  else st

/-- Modelled from the spec: `run_optimization` — up to `k` loop bodies,
stopping as soon as the phase leaves ITERATING.  `draw` supplies the
per-iteration candidate stream and `dt` the per-iteration elapsed time. -/
def run_optimization (ds : DesignSpace) (fit : List (Point × ℚ) → Point → ℚ × ℚ)
    (f : Point → ℚ) (Phi phi : ℚ → ℚ) (xi : ℚ) (draw : Nat → Nat → Point)
    (dt : Nat → ℚ) (cfg : BOConfig) : Nat → BOState → BOState
  | 0, st => st
  | k + 1, st =>
      run_optimization ds fit f Phi phi xi draw dt cfg k
        (loop_body ds fit f Phi phi xi draw dt cfg st)

/-- Modelled from the spec: INITIALIZING — sample the initial design inside
the feasible region, evaluate the objective at each point, populate the
Observation Set and enter ITERATING. -/
def bo_init (ds : DesignSpace) (f : Point → ℚ) (draw : Nat → Point)
    (n budget : Nat) : Except SamplingError BOState :=
  match sample_feasible ds draw n budget with
  | Except.error e => Except.error e
  | Except.ok pts =>
      Except.ok
        { obs := pts.map (fun p => (p, f p))
          iter := 0
          elapsed := 0
          phase := Phase.iterating }

/-- A linear congruential step: the deterministic pseudo-random generator
behind the seeded draws (the notebook fixes `seed(123456)`). -/
def lcg (s : Nat) : Nat := (1103515245 * s + 12345) % 2147483648

/-- The deterministic stream of raw pseudo-random numbers of a seed. -/
def natStream (seed : Nat) : Nat → Nat
  | 0 => lcg seed
  | n + 1 => lcg (natStream seed n)

/-- Scale a raw pseudo-random number into the interval (lo, hi). -/
def scaleTo (lo hi : ℚ) (r : Nat) : ℚ :=
  lo + (hi - lo) * ((r % 1000 : Nat) : ℚ) / 1000

/-- Modelled from the spec: the seeded uniform draw from the bounding box —
the i-th raw candidate point is a pure function of the seed, the draw index
and the box bounds. -/
def draw_of (ds : DesignSpace) (seed : Nat) (i : Nat) : Point :=
  ds.bounds.enum.map
    (fun jb => scaleTo jb.2.1 jb.2.2 (natStream seed (i * ds.bounds.length + jb.1)))

/-- Modelled from the spec: the whole pipeline the notebook runs — seeded
initial design of `n` points followed by `k` sequential iterations — as a
pure function of the configuration and the random seed. -/
def bo_pipeline (ds : DesignSpace) (fit : List (Point × ℚ) → Point → ℚ × ℚ)
    (f : Point → ℚ) (Phi phi : ℚ → ℚ) (xi : ℚ) (dt : Nat → ℚ) (cfg : BOConfig)
    (n k : Nat) (seed : Nat) : Except SamplingError BOState :=
  match bo_init ds f (fun i => draw_of ds seed i) n cfg.budget with
  | Except.error e => Except.error e
  | Except.ok st =>
      Except.ok
        (run_optimization ds fit f Phi phi xi
          (fun it i => draw_of ds seed (n + cfg.budget * (it + 1) + i)) dt cfg k st)

/-- The sequence of evaluated points of a finished (or failed) pipeline. -/
def evaluated_points (r : Except SamplingError BOState) : List Point :=
  match r with
  | Except.error _ => []
  | Except.ok st => st.obs.map Prod.fst

/-- The square-root argument shared by the notebook's two constraint
expressions: `1 - x[:,0]**2`. -/
def radicand (x1 : ℝ) : ℝ := 1 - x1 ^ 2

/-- The notebook's first constraint expression `constr_1`:
`-x[:,1] - .5 + abs(x[:,0]) - np.sqrt(1 - x[:,0]**2)`. -/
noncomputable def constr_1 (x1 x2 : ℝ) : ℝ := -x2 - 0.5 + |x1| - Real.sqrt (radicand x1)

/-- The notebook's second constraint expression `constr_2`:
`x[:,1] + .5 - abs(x[:,0]) - np.sqrt(1 - x[:,0]**2)`. -/
noncomputable def constr_2 (x1 x2 : ℝ) : ℝ := x2 + 0.5 - |x1| - Real.sqrt (radicand x1)

/-- Witness fixture: a 1-dimensional design space on the box [0, 10] with
the single constraint x ≤ 1/2. -/
def dsW : DesignSpace :=
  { bounds := [(0, 10)], constraints := [fun p => p.headI - 1/2] }

/-- Witness fixture: raw integer-coordinate draws 0, 1, 2, ... -/
def drawW : Nat → Point := fun i => [(i : ℚ)]

/-- Witness fixture: a configuration with one seed per iteration. -/
def cfgW : BOConfig :=
  { max_iter := 100, max_time := none, eps := 0, nseeds := 1, budget := 2 }

/-- Witness fixture: a surrogate predicting mean 0 and variance 0. -/
def fitW : List (Point × ℚ) → Point → ℚ × ℚ := fun _ _ => (0, 0)

/-- Witness fixture: objective returning the first coordinate. -/
def fW : Point → ℚ := fun p => p.headI

/-- Witness fixture: a loop state with one observation, in ITERATING. -/
def stW : BOState :=
  { obs := [([0], 0)], iter := 0, elapsed := 0, phase := Phase.iterating }

/-- Witness fixture: a loop state with two identical observations. -/
def st2W : BOState :=
  { obs := [([0], 0), ([0], 0)], iter := 0, elapsed := 0, phase := Phase.iterating }

/-- Witness fixture: a configuration whose iteration budget is already
spent. -/
def cfgIterW : BOConfig :=
  { max_iter := 0, max_time := none, eps := 0, nseeds := 1, budget := 2 }

/-- Witness fixture: a configuration whose time budget is already spent. -/
def cfgTimeW : BOConfig :=
  { max_iter := 100, max_time := some (-1), eps := 0, nseeds := 1, budget := 2 }

/-- Witness fixture: a configuration with tolerance 1 (so two coincident
consecutive observations trigger convergence). -/
def cfgEpsW : BOConfig :=
  { max_iter := 100, max_time := none, eps := 1, nseeds := 1, budget := 2 }

/-- Zipping two maps over the same list is the map of the pointwise
combination. -/
theorem zipWith_map_same {α β γ δ : Type} (f : β → γ → δ) (g : α → β) (h : α → γ)
    (l : List α) :
    List.zipWith f (l.map g) (l.map h) = l.map (fun x => f (g x) (h x)) := by
  induction l with
  | nil => rfl
  | cons a t ih => simp [ih]

/-- Folding a batch of constraint columns into an indicator column acts
pointwise on the batch. -/
theorem fold_columns_map (cs : List (Point → ℚ)) (ps : List Point) (g : Point → ℚ) :
    cs.foldl (fun col c => List.zipWith (fun a b => a * b) col (constraintColumn c ps))
        (ps.map g) =
      ps.map (fun p => cs.foldl (fun v c => v * cIndicator c p) (g p)) := by
  induction cs generalizing g with
  | nil => rfl
  | cons c t ih =>
      have h1 : List.zipWith (fun a b => a * b) (ps.map g) (constraintColumn c ps) =
          ps.map (fun x => g x * cIndicator c x) := by
        rw [constraintColumn]
        exact zipWith_map_same _ _ _ _
      simp only [List.foldl_cons, h1]
      exact ih (fun x => g x * cIndicator c x)

/-- Folding indicator factors multiplies the accumulator by the conjunction
indicator of the constraints. -/
theorem fold_cIndicator (cs : List (Point → ℚ)) (p : Point) (a : ℚ) :
    cs.foldl (fun v c => v * cIndicator c p) a =
      a * (if cs.all (fun c => decide (c p ≤ 0)) then 1 else 0) := by
  induction cs generalizing a with
  | nil => simp
  | cons c t ih =>
      simp only [List.foldl_cons, List.all_cons]
      rw [ih]
      by_cases h : c p ≤ 0
      · simp [cIndicator, h]
      · simp [cIndicator, h]

/-- The rejection-sampling loop keeps only feasible points: if the
accumulator holds feasible points, every point of a successful result is
feasible. -/
theorem rejectionLoop_feasible (ds : DesignSpace) (draw : Nat → Point) :
    ∀ (fuel i need : Nat) (acc pts : List Point),
      (∀ q ∈ acc, contains ds q = true) →
      rejectionLoop ds draw fuel i need acc = Except.ok pts →
      ∀ q ∈ pts, contains ds q = true := by
  intro fuel
  induction fuel with
  | zero =>
      intro i need acc pts hacc hrun q hq
      cases need with
      | zero =>
          simp only [rejectionLoop, Except.ok.injEq] at hrun
          subst hrun
          exact hacc q (List.mem_reverse.mp hq)
      | succ m => simp [rejectionLoop] at hrun
  | succ fuel ih =>
      intro i need acc pts hacc hrun q hq
      cases need with
      | zero =>
          simp only [rejectionLoop, Except.ok.injEq] at hrun
          subst hrun
          exact hacc q (List.mem_reverse.mp hq)
      | succ m =>
          simp only [rejectionLoop] at hrun
          by_cases hc : contains ds (draw i) = true
          · rw [if_pos hc] at hrun
            refine ih (i + 1) m (draw i :: acc) pts ?_ hrun q hq
            intro r hr
            rcases List.mem_cons.mp hr with h | h
            · exact h ▸ hc
            · exact hacc r h
          · rw [if_neg hc] at hrun
            exact ih (i + 1) (m + 1) acc pts hacc hrun q hq

/-- The rejection-sampling loop always returns: either a success carrying
exactly the number of still-needed points plus the accumulator, or the
budget-exhausted error. -/
theorem rejectionLoop_total (ds : DesignSpace) (draw : Nat → Point) :
    ∀ (fuel i need : Nat) (acc : List Point),
      (∃ pts, rejectionLoop ds draw fuel i need acc = Except.ok pts ∧
          pts.length = need + acc.length) ∨
        rejectionLoop ds draw fuel i need acc =
          Except.error SamplingError.budgetExhausted := by
  intro fuel
  induction fuel with
  | zero =>
      intro i need acc
      cases need with
      | zero => exact Or.inl ⟨acc.reverse, rfl, by simp⟩
      | succ m => exact Or.inr rfl
  | succ fuel ih =>
      intro i need acc
      cases need with
      | zero => exact Or.inl ⟨acc.reverse, rfl, by simp⟩
      | succ m =>
          simp only [rejectionLoop]
          by_cases hc : contains ds (draw i) = true
          · rw [if_pos hc]
            rcases ih (i + 1) m (draw i :: acc) with ⟨pts, hok, hlen⟩ | herr
            · refine Or.inl ⟨pts, hok, ?_⟩
              simp only [List.length_cons] at hlen
              omega
            · exact Or.inr herr
          · rw [if_neg hc]
            exact ih (i + 1) (m + 1) acc

/-- A successful feasible sample has exactly the requested length. -/
theorem sample_feasible_length (ds : DesignSpace) (draw : Nat → Point)
    (n budget : Nat) (pts : List Point)
    (h : sample_feasible ds draw n budget = Except.ok pts) : pts.length = n := by
  rcases rejectionLoop_total ds draw budget 0 n [] with ⟨pts', hok, hlen⟩ | herr
  · rw [sample_feasible] at h
    rw [h] at hok
    cases hok
    simpa using hlen
  · rw [sample_feasible] at h
    rw [h] at herr
    cases herr

/-- The best-scoring candidate returned by the fold is one of the
candidates. -/
theorem bestOf_mem (s : Point → ℚ) (c : Point) (cs : List Point) :
    bestOf s c cs ∈ c :: cs := by
  induction cs generalizing c with
  | nil => simp [bestOf]
  | cons d t ih =>
      by_cases h : s c < s d
      · have he : bestOf s c (d :: t) = bestOf s d t := by
          simp [bestOf, List.foldl_cons, h]
        rw [he]
        rcases List.mem_cons.mp (ih d) with h' | h'
        · rw [h']
          exact List.mem_cons_of_mem _ (List.mem_cons_self _ _)
        · exact List.mem_cons_of_mem _ (List.mem_cons_of_mem _ h')
      · have he : bestOf s c (d :: t) = bestOf s c t := by
          simp [bestOf, List.foldl_cons, h]
        rw [he]
        rcases List.mem_cons.mp (ih c) with h' | h'
        · rw [h']
          exact List.mem_cons_self _ _
        · exact List.mem_cons_of_mem _ (List.mem_cons_of_mem _ h')

/-- Claim C3: `contains` holds exactly when every per-dimension bound is
respected and every constraint predicate evaluates ≤ 0, and the bulk
(vectorized) feasibility evaluation agrees pointwise with the per-point
evaluation on every batch. -/
theorem contains_iff_and_bulk_consistent (ds : DesignSpace) (p : Point)
    (ps : List Point) :
    (contains ds p = true ↔
      inBounds ds.bounds p = true ∧ ∀ c ∈ ds.constraints, c p ≤ 0) ∧
      indicator_constraints ds ps = ps.map (indicator ds) := by
  constructor
  · simp [contains, List.all_eq_true]
  · rw [indicator_constraints, fold_columns_map]
    refine List.map_congr_left ?_
    intro q _
    rw [fold_cIndicator]
    by_cases hb : inBounds ds.bounds q = true
    · by_cases hc : ds.constraints.all (fun c => decide (c q ≤ 0)) = true
      · simp [boundsIndicator, indicator, contains, hb, hc]
      · simp only [Bool.not_eq_true] at hc
        simp [boundsIndicator, indicator, contains, hb, hc]
    · simp only [Bool.not_eq_true] at hb
      simp [boundsIndicator, indicator, contains, hb]

/-- Claim C4: every point of a successful `sample_feasible` result lies in
the feasible region. -/
theorem sample_feasible_all_feasible (ds : DesignSpace) (draw : Nat → Point)
    (n budget : Nat) (pts : List Point)
    (h : sample_feasible ds draw n budget = Except.ok pts) :
    ∀ q ∈ pts, contains ds q = true :=
  rejectionLoop_feasible ds draw budget 0 n [] pts (by simp) h

/-- Witness for C4 at a concrete space, draw stream and budget. -/
theorem sample_feasible_all_feasible_w : contains dsW [(0 : ℚ)] = true := by
  refine sample_feasible_all_feasible dsW drawW 1 3 [[0]] ?_ [0] (by simp)
  norm_num [sample_feasible, rejectionLoop, contains, inBounds, dsW, drawW, List.all]

/-- Claim C5: `sample_feasible` always terminates with an answer for the
caller: either it succeeds with exactly `n` accepted points, or the attempt
budget is exhausted first and the budget-exhausted error is returned
(never an infinite loop). -/
theorem sample_feasible_terminates (ds : DesignSpace) (draw : Nat → Point)
    (n budget : Nat) :
    (∃ pts, sample_feasible ds draw n budget = Except.ok pts ∧ pts.length = n) ∨
      sample_feasible ds draw n budget =
        Except.error SamplingError.budgetExhausted := by
  rcases rejectionLoop_total ds draw budget 0 n [] with ⟨pts, hok, hlen⟩ | herr
  · exact Or.inl ⟨pts, hok, by simpa using hlen⟩
  · exact Or.inr herr

/-- Claim C1: the acquisition's `score` is exactly 0 at every point outside
the feasible region, and consequently any point returned by the acquisition
optimizer `argmax_feasible` (which selects among feasibly-sampled
candidates) lies inside the feasible region. -/
theorem score_zero_outside_feasible (ds : DesignSpace) (base : Point → ℚ)
    (draw : Nat → Point) (nseeds budget : Nat) :
    (∀ x, contains ds x = false → score ds base x = 0) ∧
      ∀ p, argmax_feasible ds (score ds base) draw nseeds budget = Except.ok p →
        contains ds p = true := by
  constructor
  · intro x hx
    simp [score, hx]
  · intro p hp
    rw [argmax_feasible] at hp
    cases hs : sample_feasible ds draw nseeds budget with
    | error e => rw [hs] at hp; cases hp
    | ok pts =>
        rw [hs] at hp
        cases pts with
        | nil => cases hp
        | cons c cs =>
            simp only [Except.ok.injEq] at hp
            refine rejectionLoop_feasible ds draw budget 0 nseeds [] (c :: cs)
              (by simp) hs p ?_
            exact hp ▸ bestOf_mem (score ds base) c cs

/-- Witness for C1 at a concrete space: an infeasible point scores 0 and the
optimizer's selected point is feasible. -/
theorem score_zero_outside_feasible_w :
    score dsW (fun _ => (0 : ℚ)) [1] = 0 ∧ contains dsW [(0 : ℚ)] = true := by
  constructor
  · refine (score_zero_outside_feasible dsW (fun _ => (0 : ℚ)) drawW 1 2).1 [1] ?_
    norm_num [contains, inBounds, dsW, List.all]
  · refine (score_zero_outside_feasible dsW (fun _ => (0 : ℚ)) drawW 1 2).2 [0] ?_
    norm_num [argmax_feasible, sample_feasible, rejectionLoop, contains, inBounds,
      dsW, drawW, List.all, bestOf]

/-- Claim C2: Expected Improvement degrades to 0 whenever the predictive
standard deviation is zero (no arithmetic error), and otherwise equals
(y_best − μ − ξ)·Φ(z) + σ·φ(z) with z = (y_best − μ − ξ)/σ. -/
theorem EI_cases (Phi phi : ℚ → ℚ) (xi ybest mu sigma : ℚ) (hxi : 0 ≤ xi) :
    (sigma = 0 → EI Phi phi xi ybest mu sigma = 0) ∧
      (sigma ≠ 0 →
        EI Phi phi xi ybest mu sigma =
          (ybest - mu - xi) * Phi ((ybest - mu - xi) / sigma) +
            sigma * phi ((ybest - mu - xi) / sigma)) := by
  constructor
  · intro h
    simp [EI, h]
  · intro h
    simp [EI, h]

/-- Witness for C2 at concrete inputs, in both the degenerate and the
regular branch. -/
theorem EI_cases_w :
    EI id id 0 0 0 0 = 0 ∧
      EI id id 0 0 0 1 =
        (0 - 0 - 0) * id ((0 - 0 - 0) / 1) + 1 * id ((0 - 0 - 0) / 1) := by
  constructor
  · exact (EI_cases id id 0 0 0 0 le_rfl).1 rfl
  · exact (EI_cases id id 0 0 0 1 le_rfl).2 one_ne_zero

/-- Claim C8: the whole seeded pipeline is a pure function of its
configuration and seed, so two independent runs with identical
configuration and identical seed produce identical sequences of evaluated
points. -/
theorem pipeline_deterministic (ds : DesignSpace)
    (fit : List (Point × ℚ) → Point → ℚ × ℚ) (f : Point → ℚ) (Phi phi : ℚ → ℚ)
    (xi : ℚ) (dt : Nat → ℚ) (cfg : BOConfig) (n k : Nat) (s1 s2 : Nat)
    (h : s1 = s2) :
    evaluated_points (bo_pipeline ds fit f Phi phi xi dt cfg n k s1) =
      evaluated_points (bo_pipeline ds fit f Phi phi xi dt cfg n k s2) := by
  rw [h]

/-- Witness for C8: two runs of the concrete pipeline with the notebook's
seed 123456 yield the same evaluated points. -/
theorem pipeline_deterministic_w :
    evaluated_points (bo_pipeline dsW fitW fW id id 0 (fun _ => 1) cfgW 1 1 123456) =
      evaluated_points (bo_pipeline dsW fitW fW id id 0 (fun _ => 1) cfgW 1 1 123456) :=
  pipeline_deterministic dsW fitW fW id id 0 (fun _ => 1) cfgW 1 1 123456 123456 rfl

/-- Claim C10: on the notebook's box (x1 in [-1, 1], x2 in [-1.5, 1.5]) the
square-root argument 1 − x1² shared by both constraint expressions is
nonnegative, so `Real.sqrt` is applied to a nonnegative number and behaves
as a genuine square root there: feasibility testing never takes the square
root of a negative number. -/
theorem radicand_nonneg_on_box (x1 x2 : ℝ) (h1 : -1 ≤ x1) (h2 : x1 ≤ 1)
    (h3 : -(3 / 2) ≤ x2) (h4 : x2 ≤ 3 / 2) :
    0 ≤ radicand x1 ∧ Real.sqrt (radicand x1) ^ 2 = radicand x1 := by
  have h : 0 ≤ radicand x1 := by
    rw [radicand]
    nlinarith
  exact ⟨h, Real.sq_sqrt h⟩

/-- Witness for C10 at the box centre (0, 0). -/
theorem radicand_nonneg_on_box_w :
    0 ≤ radicand 0 ∧ Real.sqrt (radicand 0) ^ 2 = radicand 0 :=
  radicand_nonneg_on_box 0 0 (by norm_num) (by norm_num) (by norm_num) (by norm_num)

/-- The incumbent fold started from a pair returns that pair or a listed
pair, never exceeding the start value nor any listed value. -/
theorem foldl_minPair_spec :
    ∀ (obs : List (Point × ℚ)) (b c : Point × ℚ),
      obs.foldl minPair (some b) = some c →
        (c = b ∨ c ∈ obs) ∧ c.2 ≤ b.2 ∧ ∀ o ∈ obs, c.2 ≤ o.2 := by
  intro obs
  induction obs with
  | nil =>
      intro b c h
      simp only [List.foldl_nil, Option.some.injEq] at h
      subst h
      exact ⟨Or.inl rfl, le_rfl, by simp⟩
  | cons o t ih =>
      intro b c h
      simp only [List.foldl_cons, minPair] at h
      by_cases hlt : o.2 < b.2
      · rw [if_pos hlt] at h
        rcases ih o c h with ⟨hm, hle, hall⟩
        refine ⟨?_, le_trans hle (le_of_lt hlt), ?_⟩
        · rcases hm with hm | hm
          · rw [hm]
            exact Or.inr (List.mem_cons_self _ _)
          · exact Or.inr (List.mem_cons_of_mem _ hm)
        · intro o' ho'
          rcases List.mem_cons.mp ho' with ho' | ho'
          · rw [ho']
            exact hle
          · exact hall o' ho'
      · rw [if_neg hlt] at h
        rcases ih b c h with ⟨hm, hle, hall⟩
        refine ⟨?_, hle, ?_⟩
        · rcases hm with hm | hm
          · exact Or.inl hm
          · exact Or.inr (List.mem_cons_of_mem _ hm)
        · intro o' ho'
          rcases List.mem_cons.mp ho' with ho' | ho'
          · rw [ho']
            exact le_trans hle (le_of_not_lt hlt)
          · exact hall o' ho'

/-- The incumbent fold started from a pair always returns a pair. -/
theorem foldl_minPair_some :
    ∀ (obs : List (Point × ℚ)) (b : Point × ℚ),
      ∃ c, obs.foldl minPair (some b) = some c := by
  intro obs
  induction obs with
  | nil => exact fun b => ⟨b, rfl⟩
  | cons o t ih =>
      intro b
      simp only [List.foldl_cons, minPair]
      by_cases h : o.2 < b.2
      · rw [if_pos h]
        exact ih o
      · rw [if_neg h]
        exact ih b

/-- The incumbent of a listed Observation Set is a listed pair of minimal
objective value. -/
theorem incumbent_spec (obs : List (Point × ℚ)) (x : Point) (fx : ℚ)
    (h : incumbent obs = some (x, fx)) : (x, fx) ∈ obs ∧ ∀ o ∈ obs, fx ≤ o.2 := by
  cases obs with
  | nil => simp [incumbent] at h
  | cons o t =>
      have h' : t.foldl minPair (some o) = some (x, fx) := by
        simpa [incumbent, List.foldl_cons, minPair] using h
      rcases foldl_minPair_spec t o (x, fx) h' with ⟨hm, hle, hall⟩
      constructor
      · rcases hm with hm | hm
        · rw [hm]
          exact List.mem_cons_self _ _
        · exact List.mem_cons_of_mem _ hm
      · intro o' ho'
        rcases List.mem_cons.mp ho' with ho' | ho'
        · rw [ho']
          exact hle
        · exact hall o' ho'

/-- A nonempty Observation Set has an incumbent. -/
theorem incumbent_ne_nil (obs : List (Point × ℚ)) (h : obs ≠ []) :
    ∃ c, incumbent obs = some c := by
  cases obs with
  | nil => exact absurd rfl h
  | cons o t =>
      have h2 := foldl_minPair_some t o
      simpa [incumbent, List.foldl_cons, minPair] using h2

/-- Appending an observation can only lower (or keep) the incumbent
value. -/
theorem f_opt_append (obs : List (Point × ℚ)) (o : Point × ℚ) (h : obs ≠ []) :
    f_opt (obs ++ [o]) ≤ f_opt obs := by
  rcases incumbent_ne_nil obs h with ⟨b, hb⟩
  have h1 : incumbent (obs ++ [o]) = minPair (some b) o := by
    rw [incumbent, List.foldl_append]
    rw [show List.foldl minPair none obs = incumbent obs from rfl, hb]
    rfl
  rw [f_opt, f_opt, h1, hb]
  simp only [minPair]
  by_cases hlt : o.2 < b.2
  · rw [if_pos hlt]
    simpa using le_of_lt hlt
  · rw [if_neg hlt]

/-- The stopping check never touches the Observation Set. -/
theorem check_stop_obs (cfg : BOConfig) (st : BOState) :
    (check_stop cfg st).obs = st.obs := by
  simp only [check_stop]
  split
  · split
    · rfl
    · split
      · rfl
      · split
        · rfl
        · rfl
  · rfl

/-- The stopping check is the identity outside ITERATING. -/
theorem check_stop_not_iterating (cfg : BOConfig) (st : BOState)
    (h : ¬st.phase = Phase.iterating) : check_stop cfg st = st := by
  simp only [check_stop, if_neg h]

/-- One sequential step either fails (sampling exhausted inside the
acquisition optimizer) leaving the observations untouched, or appends
exactly one (point, value) pair. -/
theorem bo_step_shape (ds : DesignSpace) (fit : List (Point × ℚ) → Point → ℚ × ℚ)
    (f : Point → ℚ) (Phi phi : ℚ → ℚ) (xi : ℚ) (drawP : Nat → Point)
    (cfg : BOConfig) (dt0 : ℚ) (st : BOState) :
    bo_step ds fit f Phi phi xi drawP cfg dt0 st = { st with phase := Phase.failed } ∨
      ∃ x, bo_step ds fit f Phi phi xi drawP cfg dt0 st =
        { st with
          obs := st.obs ++ [(x, f x)]
          iter := st.iter + 1
          elapsed := st.elapsed + dt0 } := by
  simp only [bo_step]
  cases argmax_feasible ds
      (score ds (fun x => EI Phi phi xi (f_opt st.obs) (fit st.obs x).1 (fit st.obs x).2))
      drawP cfg.nseeds cfg.budget with
  | error e => exact Or.inl rfl
  | ok x => exact Or.inr ⟨x, rfl⟩

section LoopLemmas

variable (ds : DesignSpace) (fit : List (Point × ℚ) → Point → ℚ × ℚ)
variable (f : Point → ℚ) (Phi phi : ℚ → ℚ) (xi : ℚ)
variable (draw : Nat → Nat → Point) (dt : Nat → ℚ) (cfg : BOConfig)

/-- The runner is the identity once the phase has left ITERATING. -/
theorem run_stuck :
    ∀ (k : Nat) (st : BOState), ¬st.phase = Phase.iterating →
      run_optimization ds fit f Phi phi xi draw dt cfg k st = st := by
  intro k
  induction k with
  | zero => intro st _; rfl
  | succ k ih =>
      intro st h
      simp only [run_optimization]
      rw [show loop_body ds fit f Phi phi xi draw dt cfg st = st from by
        simp only [loop_body, if_neg h]]
      exact ih st h

/-- Running one more loop body applies the loop body to the result of the
previous run. -/
theorem run_succ :
    ∀ (k : Nat) (st : BOState),
      run_optimization ds fit f Phi phi xi draw dt cfg (k + 1) st =
        loop_body ds fit f Phi phi xi draw dt cfg
          (run_optimization ds fit f Phi phi xi draw dt cfg k st) := by
  intro k
  induction k with
  | zero => intro st; rfl
  | succ k ih =>
      intro st
      have h1 : run_optimization ds fit f Phi phi xi draw dt cfg (k + 1 + 1) st =
          run_optimization ds fit f Phi phi xi draw dt cfg (k + 1)
            (loop_body ds fit f Phi phi xi draw dt cfg st) := rfl
      rw [h1, ih]
      rfl

/-- One loop body never raises the incumbent value. -/
theorem loop_body_f_opt (st : BOState) (h : st.obs ≠ []) :
    f_opt ((loop_body ds fit f Phi phi xi draw dt cfg st).obs) ≤ f_opt st.obs := by
  by_cases hp : st.phase = Phase.iterating
  · simp only [loop_body, if_pos hp, check_stop_obs]
    rcases bo_step_shape ds fit f Phi phi xi (draw st.iter) cfg (dt st.iter) st with
      hs | ⟨x, hs⟩
    · rw [hs]
    · rw [hs]
      exact f_opt_append st.obs (x, f x) h
  · simp only [loop_body, if_neg hp]
    exact le_rfl

end LoopLemmas

/-- Claim C6: (x_opt, f_opt) is the Observation Set pair of minimal
objective value, and the incumbent value f_opt never increases from one
iteration of the optimization loop to the next. -/
theorem incumbent_minimal_and_monotone (ds : DesignSpace)
    (fit : List (Point × ℚ) → Point → ℚ × ℚ) (f : Point → ℚ) (Phi phi : ℚ → ℚ)
    (xi : ℚ) (draw : Nat → Nat → Point) (dt : Nat → ℚ) (cfg : BOConfig) :
    (∀ (obs : List (Point × ℚ)) (x : Point) (fx : ℚ), incumbent obs = some (x, fx) →
        x_opt obs = x ∧ f_opt obs = fx ∧ (x, fx) ∈ obs ∧ ∀ o ∈ obs, fx ≤ o.2) ∧
      ∀ (i : Nat) (st : BOState),
        (run_optimization ds fit f Phi phi xi draw dt cfg i st).obs ≠ [] →
          f_opt ((run_optimization ds fit f Phi phi xi draw dt cfg (i + 1) st).obs) ≤
            f_opt ((run_optimization ds fit f Phi phi xi draw dt cfg i st).obs) := by
  constructor
  · intro obs x fx h
    rcases incumbent_spec obs x fx h with ⟨hm, hall⟩
    exact ⟨by simp [x_opt, h], by simp [f_opt, h], hm, hall⟩
  · intro i st h
    rw [run_succ]
    exact loop_body_f_opt ds fit f Phi phi xi draw dt cfg _ h

/-- Witness for C6: the incumbent of a concrete one-element Observation Set
and one concrete iteration that does not raise f_opt. -/
theorem incumbent_minimal_and_monotone_w :
    (x_opt stW.obs = [0] ∧ f_opt stW.obs = 0 ∧ ([0], (0 : ℚ)) ∈ stW.obs ∧
        ∀ o ∈ stW.obs, (0 : ℚ) ≤ o.2) ∧
      f_opt ((run_optimization dsW fitW fW id id 0 (fun _ _ => [0]) (fun _ => 1)
            cfgW (0 + 1) stW).obs) ≤
        f_opt ((run_optimization dsW fitW fW id id 0 (fun _ _ => [0]) (fun _ => 1)
            cfgW 0 stW).obs) := by
  constructor
  · exact (incumbent_minimal_and_monotone dsW fitW fW id id 0 (fun _ _ => [0])
      (fun _ => 1) cfgW).1 stW.obs [0] 0 rfl
  · refine (incumbent_minimal_and_monotone dsW fitW fW id id 0 (fun _ _ => [0])
      (fun _ => 1) cfgW).2 0 stW ?_
    simp [run_optimization, stW]

/-- Claim C7: INITIALIZING populates the Observation Set with exactly the
requested number of initial points and enters ITERATING, and as long as the
loop is still in ITERATING after k sequential cycles the Observation Set
has grown by exactly k entries (one appended pair per iteration). -/
theorem observation_set_growth (ds : DesignSpace)
    (fit : List (Point × ℚ) → Point → ℚ × ℚ) (f : Point → ℚ) (Phi phi : ℚ → ℚ)
    (xi : ℚ) (draw : Nat → Nat → Point) (dt : Nat → ℚ) (cfg : BOConfig)
    (n budget : Nat) :
    (∀ (draw0 : Nat → Point) (st0 : BOState),
        bo_init ds f draw0 n budget = Except.ok st0 →
          st0.obs.length = n ∧ st0.phase = Phase.iterating) ∧
      ∀ (k : Nat) (st : BOState), st.phase = Phase.iterating →
        (run_optimization ds fit f Phi phi xi draw dt cfg k st).phase =
            Phase.iterating →
          (run_optimization ds fit f Phi phi xi draw dt cfg k st).obs.length =
            st.obs.length + k := by
  constructor
  · intro draw0 st0 h
    rw [bo_init] at h
    cases hs : sample_feasible ds draw0 n budget with
    | error e => rw [hs] at h; cases h
    | ok pts =>
        rw [hs] at h
        simp only [Except.ok.injEq] at h
        subst h
        refine ⟨?_, rfl⟩
        simp [sample_feasible_length ds draw0 n budget pts hs]
  · intro k
    induction k with
    | zero =>
        intro st h hf
        simp [run_optimization]
    | succ k ih =>
        intro st h hf
        have hstep : run_optimization ds fit f Phi phi xi draw dt cfg (k + 1) st =
            run_optimization ds fit f Phi phi xi draw dt cfg k
              (loop_body ds fit f Phi phi xi draw dt cfg st) := rfl
        rw [hstep] at hf ⊢
        rcases bo_step_shape ds fit f Phi phi xi (draw st.iter) cfg (dt st.iter) st with
          hs | ⟨x, hs⟩
        · have h1 : loop_body ds fit f Phi phi xi draw dt cfg st =
              { st with phase := Phase.failed } := by
            simp only [loop_body, if_pos h, hs]
            exact check_stop_not_iterating cfg _ (by simp)
          rw [h1] at hf
          rw [run_stuck ds fit f Phi phi xi draw dt cfg k _ (by simp)] at hf
          simp at hf
        · have h1 : loop_body ds fit f Phi phi xi draw dt cfg st =
              check_stop cfg
                { st with
                  obs := st.obs ++ [(x, f x)]
                  iter := st.iter + 1
                  elapsed := st.elapsed + dt st.iter } := by
            simp only [loop_body, if_pos h, hs]
          by_cases hp :
            (loop_body ds fit f Phi phi xi draw dt cfg st).phase = Phase.iterating
          · have h2 := ih (loop_body ds fit f Phi phi xi draw dt cfg st) hp hf
            rw [h2, h1, check_stop_obs]
            simp only [List.length_append, List.length_singleton]
            omega
          · rw [run_stuck ds fit f Phi phi xi draw dt cfg k _ hp] at hf
            exact absurd hf hp

/-- Witness for C7: a concrete initialization yields exactly 1 observation
in ITERATING, and one concrete still-ITERATING cycle grows the set by 1. -/
theorem observation_set_growth_w :
    (stW.obs.length = 1 ∧ stW.phase = Phase.iterating) ∧
      (run_optimization dsW fitW fW id id 0 (fun _ _ => [0]) (fun _ => 1)
          cfgW 1 stW).obs.length = stW.obs.length + 1 := by
  constructor
  · refine (observation_set_growth dsW fitW fW id id 0 (fun _ _ => [0]) (fun _ => 1)
      cfgW 1 3).1 drawW stW ?_
    norm_num [bo_init, sample_feasible, rejectionLoop, contains, inBounds, dsW, drawW,
      List.all, fW, stW]
  · refine (observation_set_growth dsW fitW fW id id 0 (fun _ _ => [0]) (fun _ => 1)
      cfgW 1 3).2 1 stW rfl ?_
    norm_num [run_optimization, loop_body, bo_step, check_stop, stW, cfgW,
      argmax_feasible, sample_feasible, rejectionLoop, contains, inBounds, dsW, fitW,
      fW, bestOf, score, EI, distStop, lastTwo, timeExceeded, f_opt, incumbent,
      minPair, sqDist]

/-- Claim C9: the loop body ends with the stopping check, whose conditions
are tested in priority order — iteration budget, then time budget (both to
BUDGET_EXHAUSTED), then the distance-below-tolerance test (to CONVERGED),
else the state is unchanged and the loop repeats; and for a positive
tolerance the squared-distance test agrees with the Euclidean-distance
test. -/
theorem stopping_priority (ds : DesignSpace)
    (fit : List (Point × ℚ) → Point → ℚ × ℚ) (f : Point → ℚ) (Phi phi : ℚ → ℚ)
    (xi : ℚ) (draw : Nat → Nat → Point) (dt : Nat → ℚ) (cfg : BOConfig)
    (st : BOState) (h : st.phase = Phase.iterating) :
    (loop_body ds fit f Phi phi xi draw dt cfg st =
        check_stop cfg (bo_step ds fit f Phi phi xi (draw st.iter) cfg (dt st.iter) st)) ∧
      (cfg.max_iter ≤ st.iter →
        check_stop cfg st = { st with phase := Phase.budget_exhausted }) ∧
      (st.iter < cfg.max_iter → timeExceeded cfg.max_time st.elapsed = true →
        check_stop cfg st = { st with phase := Phase.budget_exhausted }) ∧
      (st.iter < cfg.max_iter → timeExceeded cfg.max_time st.elapsed = false →
        distStop cfg.eps st.obs = true →
        check_stop cfg st = { st with phase := Phase.converged }) ∧
      (st.iter < cfg.max_iter → timeExceeded cfg.max_time st.elapsed = false →
        distStop cfg.eps st.obs = false → check_stop cfg st = st) ∧
      ∀ (p q : Point), 0 < cfg.eps →
        (sqDist p q < cfg.eps ^ 2 ↔
          Real.sqrt ((sqDist p q : ℚ) : ℝ) < ((cfg.eps : ℚ) : ℝ)) := by
  refine ⟨?_, ?_, ?_, ?_, ?_, ?_⟩
  · simp only [loop_body, if_pos h]
  · intro h1
    simp only [check_stop, if_pos h, if_pos h1]
  · intro h1 h2
    simp only [check_stop, if_pos h, if_neg (not_le.mpr h1), h2, if_true]
  · intro h1 h2 h3
    simp only [check_stop, if_pos h, if_neg (not_le.mpr h1), h2, h3, if_true,
      Bool.false_eq_true, if_false]
  · intro h1 h2 h3
    simp only [check_stop, if_pos h, if_neg (not_le.mpr h1), h2, h3,
      Bool.false_eq_true, if_false]
  · intro p q he
    have he' : (0 : ℝ) < ((cfg.eps : ℚ) : ℝ) := by exact_mod_cast he
    rw [Real.sqrt_lt' he']
    constructor
    · intro hh
      exact_mod_cast hh
    · intro hh
      exact_mod_cast hh

/-- Witness for C9: the four stopping outcomes and the Euclidean agreement
at concrete configurations and states. -/
theorem stopping_priority_w :
    check_stop cfgIterW stW = { stW with phase := Phase.budget_exhausted } ∧
      check_stop cfgTimeW stW = { stW with phase := Phase.budget_exhausted } ∧
      check_stop cfgEpsW st2W = { st2W with phase := Phase.converged } ∧
      check_stop cfgW stW = stW ∧
      (sqDist [0] [0] < cfgEpsW.eps ^ 2 ↔
        Real.sqrt ((sqDist [0] [0] : ℚ) : ℝ) < ((cfgEpsW.eps : ℚ) : ℝ)) := by
  refine ⟨?_, ?_, ?_, ?_, ?_⟩
  · exact (stopping_priority dsW fitW fW id id 0 (fun _ _ => [0]) (fun _ => 1)
      cfgIterW stW rfl).2.1 le_rfl
  · refine (stopping_priority dsW fitW fW id id 0 (fun _ _ => [0]) (fun _ => 1)
      cfgTimeW stW rfl).2.2.1 (by norm_num [cfgTimeW, stW]) ?_
    norm_num [timeExceeded, cfgTimeW, stW]
  · refine (stopping_priority dsW fitW fW id id 0 (fun _ _ => [0]) (fun _ => 1)
      cfgEpsW st2W rfl).2.2.2.1 (by norm_num [cfgEpsW, st2W]) rfl ?_
    norm_num [distStop, lastTwo, sqDist, st2W, cfgEpsW]
  · refine (stopping_priority dsW fitW fW id id 0 (fun _ _ => [0]) (fun _ => 1)
      cfgW stW rfl).2.2.2.2.1 (by norm_num [cfgW, stW]) rfl rfl
  · exact (stopping_priority dsW fitW fW id id 0 (fun _ _ => [0]) (fun _ => 1)
      cfgEpsW stW rfl).2.2.2.2.2 [0] [0] (by norm_num [cfgEpsW])
